import Mathlib

/-! Verification of the Taproot transaction engine (coin selection, fee
estimation, PSBT build metadata, network classification, and the send
orchestration flow) of the murphy repository.

Shallow embedding conventions:
* Satoshi values and amounts are `Int` (the source uses JS numbers holding
  integers); fee rates are exact rationals `ℚ` (the source uses JS numbers;
  we treat them as exact, ignoring floating-point rounding).
* `Math.ceil (txSize * feeRate)` is embedded as `ceilMul txSize feeRate`,
  computed on integers from the numerator and denominator of the rate;
  `ceilMul_eq_ceil` proves it is the mathematical ceiling.
* `String.startsWith` is embedded as a prefix test on the character list of
  the string (`strStartsWith`), which is its specification and is
  kernel-computable.
* The stateful send flow (`useBitcoinTransaction.sendBitcoin`) is embedded
  with the external build/sign/finalize/broadcast outcomes as oracle
  parameters; the control flow between them is translated from the source.
* Array mutation questions (the selector sorting a spread copy) are settled
  over a small reference store `Store`, where JS array bindings are indices
  and the spread copy allocates a fresh cell.
-/

/-! ## Data model (src/services/mempool-api.ts) -/

/-- Confirmation status carried by a UTXO (`UtxoStatus.confirmed`). -/
structure UtxoStatus where
  confirmed : Bool
  deriving DecidableEq, Repr

/-- An unspent transaction output as returned by the mempool API. -/
structure UTXO where
  txid : String
  vout : Nat
  value : Int
  status : UtxoStatus
  deriving DecidableEq, Repr

/-! ## Constants (src/services/psbt-builder.ts, lines 10-17) -/

def P2TR_INPUT_SIZE : Int := 58

def P2TR_OUTPUT_SIZE : Int := 43

def BASE_TX_SIZE : Int := 10

def DUST_THRESHOLD : Int := 546

/-! ## Address utilities (src/unnamed/part_002, utils/bitcoin section) -/

/-- Embeds `s.startsWith p` of the source, stated on the character lists of the
strings (the specification of `String.startsWith`). -/
def strStartsWith (s p : String) : Bool :=
  p.data.isPrefixOf s.data

/-- Predicate `isTaprootAddress`: address starts with "bc1p" or "tb1p". -/
def isTaprootAddress (address : String) : Bool :=
  strStartsWith address "bc1p" || strStartsWith address "tb1p"

/-- Predicate `isTestnetAddress`: address starts with "tb1p". -/
def isTestnetAddress (address : String) : Bool :=
  strStartsWith address "tb1p"

/-- bitcoinjs-lib network tag (`bitcoin.networks.*`). -/
inductive Network
  | bitcoin
  | testnet
  deriving DecidableEq, Repr

/-- Embedding of `getNetwork` (src/services/psbt-builder.ts, lines 63-67). -/
def getNetwork (address : String) : Network :=
  if isTestnetAddress address then Network.testnet else Network.bitcoin

/-- Mempool API endpoint tag used by the transaction hook. -/
inductive MempoolNetwork
  | mainnet
  | signet
  deriving DecidableEq, Repr

/-- Embedding of `getApiForAddress` (src/unnamed/part_002, lines 697-702): testnet-prefixed
addresses go to the signet API instance, everything else to mainnet. -/
def getApiForAddress (address : String) : MempoolNetwork :=
  if isTestnetAddress address then MempoolNetwork.signet else MempoolNetwork.mainnet

/-! ## Size and fee arithmetic (src/services/psbt-builder.ts) -/

/-- Embedding of `estimateTxSize` (lines 72-78). -/
def estimateTxSize (inputCount : Nat) (includeChange : Bool) : Int :=
  BASE_TX_SIZE + (inputCount : Int) * P2TR_INPUT_SIZE
    + (if includeChange then 2 else 1) * P2TR_OUTPUT_SIZE

/-- Embeds `Math.ceil (size * rate)` for an integer `size` and rational `rate`,
computed with integer arithmetic so that it is kernel-computable.
`ceilMul_eq_ceil` identifies it with the mathematical ceiling. -/
def ceilMul (size : Int) (rate : ℚ) : Int :=
  -((-(size * rate.num)) / (rate.den : Int))

theorem ceilMul_eq_ceil (size : Int) (rate : ℚ) :
    ceilMul size rate = ⌈(size : ℚ) * rate⌉ := by
  have hx : (size : ℚ) * rate = ((size * rate.num : ℤ) : ℚ) / ((rate.den : ℕ) : ℚ) := by
    conv_lhs => rw [← Rat.num_div_den rate]
    push_cast
    ring
  rw [hx]
  conv_rhs => rw [← neg_neg (((size * rate.num : ℤ) : ℚ) / ((rate.den : ℕ) : ℚ))]
  rw [Int.ceil_neg]
  rw [show -(((size * rate.num : ℤ) : ℚ) / ((rate.den : ℕ) : ℚ))
      = (((-(size * rate.num) : ℤ) : ℚ) / ((rate.den : ℕ) : ℚ)) from by push_cast; ring]
  rw [Rat.floor_intCast_div_natCast]
  rfl

/-- Embedding of `calculateFee` (lines 247-254). -/
def calculateFee (inputCount : Nat) (includeChange : Bool) (feeRate : ℚ) : Int :=
  ceilMul (estimateTxSize inputCount includeChange) feeRate

/-- The `feeWithChange` candidate computed in the selector loop (line 108):
fee for `n` inputs and two outputs. -/
def feeWithChangeAt (n : Nat) (feeRate : ℚ) : Int :=
  ceilMul (estimateTxSize n true) feeRate

/-- The `feeNoChange` candidate computed in the selector loop (line 111):
fee for `n` inputs and one output. -/
def feeNoChangeAt (n : Nat) (feeRate : ℚ) : Int :=
  ceilMul (estimateTxSize n false) feeRate

/-! ## Coin selector (src/services/psbt-builder.ts, lines 84-141) -/

/-- Embedding of `CoinSelectionResult` (lines 49-58). -/
structure CoinSelectionResult where
  utxos : List UTXO
  totalValue : Int
  fee : Int
  change : Int
  deriving DecidableEq, Repr

/-- The `[...availableUtxos].sort((a, b) => b.value - a.value)` of line 97:
the stable sort of the list by value descending. -/
def sortUtxos (l : List UTXO) : List UTXO :=
  l.insertionSort (fun a b => b.value ≤ a.value)

/-- The `for` loop of lines 102-137: walk the sorted list accumulating
`selected`/`totalValue`; after each addition test whether the running total
covers target plus the with-change fee, then either return (with a change
output, or collapsed to no-change when the change would be dust) or keep
scanning.  Returns `none` when the list is exhausted. -/
def selectLoop (targetAmount : Int) (feeRate : ℚ) :
    List UTXO → List UTXO → Int → Option CoinSelectionResult
  | [], _, _ => none
  | utxo :: rest, selected, totalValue =>
    if targetAmount + feeWithChangeAt (selected ++ [utxo]).length feeRate
        ≤ totalValue + utxo.value then
      if totalValue + utxo.value - targetAmount
          - feeWithChangeAt (selected ++ [utxo]).length feeRate < DUST_THRESHOLD then
        if targetAmount + feeNoChangeAt (selected ++ [utxo]).length feeRate
            ≤ totalValue + utxo.value then
          some ⟨selected ++ [utxo], totalValue + utxo.value,
            totalValue + utxo.value - targetAmount, 0⟩
        else
          selectLoop targetAmount feeRate rest (selected ++ [utxo]) (totalValue + utxo.value)
      else
        some ⟨selected ++ [utxo], totalValue + utxo.value,
          feeWithChangeAt (selected ++ [utxo]).length feeRate,
          totalValue + utxo.value - targetAmount
            - feeWithChangeAt (selected ++ [utxo]).length feeRate⟩
    else
      selectLoop targetAmount feeRate rest (selected ++ [utxo]) (totalValue + utxo.value)

/-- Embedding of `selectUtxos` (lines 84-141).  The source throws on a non-Taproot sender
address; the thrown error is embedded as `Except.error`.  `none` is the
"insufficient funds" outcome (`return null`, line 140). -/
def selectUtxos (availableUtxos : List UTXO) (targetAmount : Int) (feeRate : ℚ)
    (senderAddress recipientAddress : String) :
    Except String (Option CoinSelectionResult) :=
  if !isTaprootAddress senderAddress then
    Except.error "Only Taproot addresses are supported"
  else
    Except.ok (selectLoop targetAmount feeRate (sortUtxos availableUtxos) [] 0)

/-! ## Specification predicates for the selector loop -/

/-- Sum of the values of a list of UTXOs. -/
def sumValues (l : List UTXO) : Int :=
  (l.map (fun u => u.value)).sum

/-- Total value of the first `n` elements of `l`. -/
def prefixTotal (l : List UTXO) (n : Nat) : Int :=
  sumValues (l.take n)

/-- The acceptance test applied by the selector loop after its `n`-th
addition with running total `total` (lines 114-127 of the source): the
total covers target plus the with-change fee, and either the change is not
dust or the no-change fallback total also covers. -/
abbrev accept (targetAmount : Int) (feeRate : ℚ) (n : Nat) (total : Int) : Prop :=
  targetAmount + feeWithChangeAt n feeRate ≤ total ∧
    (DUST_THRESHOLD ≤ total - targetAmount - feeWithChangeAt n feeRate ∨
      targetAmount + feeNoChangeAt n feeRate ≤ total)

theorem prefixTotal_one (u : UTXO) (rest : List UTXO) :
    prefixTotal (u :: rest) 1 = u.value := by
  simp [prefixTotal, sumValues]

theorem prefixTotal_succ (u : UTXO) (rest : List UTXO) (j : Nat) :
    prefixTotal (u :: rest) (j + 1) = u.value + prefixTotal rest j := by
  simp [prefixTotal, sumValues]

theorem forall_prefix_cons_iff (t : Int) (r : ℚ) (u : UTXO) (rest : List UTXO)
    (k : Nat) (total : Int) :
    (∀ j, 1 ≤ j → j ≤ (u :: rest).length →
        ¬ accept t r (k + j) (total + prefixTotal (u :: rest) j)) ↔
      (¬ accept t r (k + 1) (total + u.value) ∧
        ∀ j, 1 ≤ j → j ≤ rest.length →
          ¬ accept t r (k + 1 + j) (total + u.value + prefixTotal rest j)) := by
  constructor
  · intro h
    constructor
    · have h1 := h 1 le_rfl (by simp)
      rwa [prefixTotal_one] at h1
    · intro j hj1 hj2
      have hsucc := h (j + 1) (by omega) (by simp only [List.length_cons]; omega)
      rw [prefixTotal_succ] at hsucc
      have e1 : k + (j + 1) = k + 1 + j := by omega
      have e2 : total + (u.value + prefixTotal rest j)
          = total + u.value + prefixTotal rest j := by ring
      rwa [e1, e2] at hsucc
  · intro h j hj1 hj2
    cases j with
    | zero => omega
    | succ j1 =>
      cases j1 with
      | zero =>
        rw [prefixTotal_one]
        exact h.1
      | succ j2 =>
        rw [prefixTotal_succ]
        simp only [List.length_cons] at hj2
        have h2 := h.2 (j2 + 1) (by omega) (by omega)
        have e1 : k + (j2 + 1 + 1) = k + 1 + (j2 + 1) := by omega
        have e2 : total + (u.value + prefixTotal rest (j2 + 1))
            = total + u.value + prefixTotal rest (j2 + 1) := by ring
        rw [e1, e2]
        exact h2

theorem selectLoop_eq_none_iff (t : Int) (r : ℚ) :
    ∀ (rest selected : List UTXO) (total : Int),
      selectLoop t r rest selected total = none ↔
        ∀ j, 1 ≤ j → j ≤ rest.length →
          ¬ accept t r (selected.length + j) (total + prefixTotal rest j)
  | [], selected, total => by
      simp only [selectLoop, List.length_nil]
      constructor
      · intro _ j hj1 hj2
        omega
      · intro _
        trivial
  | utxo :: rest, selected, total => by
      have hlen : (selected ++ [utxo]).length = selected.length + 1 := by simp
      rw [forall_prefix_cons_iff]
      simp only [selectLoop]
      split_ifs with c1 c2 c3
      · rw [hlen] at c1 c3
        constructor
        · intro h
          exact absurd h (by simp)
        · rintro ⟨hA, _⟩
          exact absurd ⟨c1, Or.inr c3⟩ hA
      · rw [selectLoop_eq_none_iff t r rest (selected ++ [utxo]) (total + utxo.value), hlen]
        rw [hlen] at c1 c2 c3
        constructor
        · intro h
          refine ⟨?_, h⟩
          rintro ⟨ha, hb | hc⟩
          · omega
          · exact c3 hc
        · rintro ⟨_, h⟩
          exact h
      · rw [hlen] at c1 c2
        constructor
        · intro h
          exact absurd h (by simp)
        · rintro ⟨hA, _⟩
          exact absurd ⟨c1, Or.inl (by omega)⟩ hA
      · rw [selectLoop_eq_none_iff t r rest (selected ++ [utxo]) (total + utxo.value), hlen]
        rw [hlen] at c1
        constructor
        · intro h
          refine ⟨?_, h⟩
          rintro ⟨ha, _⟩
          exact c1 ha
        · rintro ⟨_, h⟩
          exact h

theorem selectLoop_eq_some_spec (t : Int) (r : ℚ) :
    ∀ (rest selected : List UTXO) (total : Int) (res : CoinSelectionResult),
      selectLoop t r rest selected total = some res →
      ∃ j, 1 ≤ j ∧ j ≤ rest.length ∧
        res.utxos = selected ++ rest.take j ∧
        res.totalValue = total + prefixTotal rest j ∧
        accept t r (selected.length + j) (total + prefixTotal rest j) ∧
        ∀ i, 1 ≤ i → i < j →
          ¬ accept t r (selected.length + i) (total + prefixTotal rest i)
  | [], selected, total, res => by
      simp [selectLoop]
  | utxo :: rest, selected, total, res => by
      have hlen : (selected ++ [utxo]).length = selected.length + 1 := by simp
      simp only [selectLoop]
      split_ifs with c1 c2 c3
      · intro h
        injection h with h
        refine ⟨1, le_rfl, by simp, ?_, ?_, ?_, ?_⟩
        · rw [← h]
          simp
        · rw [← h, prefixTotal_one]
        · rw [prefixTotal_one]
          rw [hlen] at c1 c3
          exact ⟨c1, Or.inr c3⟩
        · intro i hi1 hi2
          omega
      · intro h
        obtain ⟨j, hj1, hj2, hu, htot, hacc, hmin⟩ :=
          selectLoop_eq_some_spec t r rest (selected ++ [utxo]) (total + utxo.value) res h
        refine ⟨j + 1, by omega, by simp only [List.length_cons]; omega, ?_, ?_, ?_, ?_⟩
        · rw [hu, List.take_succ_cons, List.append_assoc]
          rfl
        · rw [htot, prefixTotal_succ]
          ring
        · rw [prefixTotal_succ]
          have e1 : selected.length + (j + 1) = (selected ++ [utxo]).length + j := by
            simp only [List.length_append, List.length_singleton]
            omega
          have e2 : total + (utxo.value + prefixTotal rest j)
              = total + utxo.value + prefixTotal rest j := by ring
          rw [e1, e2]
          exact hacc
        · intro i hi1 hi2
          cases i with
          | zero => omega
          | succ i1 =>
            cases i1 with
            | zero =>
              simp only [Nat.zero_add]
              rw [prefixTotal_one]
              rw [hlen] at c2 c3
              rintro ⟨ha, hb | hc⟩
              · omega
              · exact c3 hc
            | succ i2 =>
              rw [prefixTotal_succ]
              have h2 := hmin (i2 + 1) (by omega) (by omega)
              have e1 : selected.length + (i2 + 1 + 1)
                  = (selected ++ [utxo]).length + (i2 + 1) := by
                simp only [List.length_append, List.length_singleton]
                omega
              have e2 : total + (utxo.value + prefixTotal rest (i2 + 1))
                  = total + utxo.value + prefixTotal rest (i2 + 1) := by ring
              rw [e1, e2]
              exact h2
      · intro h
        injection h with h
        refine ⟨1, le_rfl, by simp, ?_, ?_, ?_, ?_⟩
        · rw [← h]
          simp
        · rw [← h, prefixTotal_one]
        · rw [prefixTotal_one]
          rw [hlen] at c1 c2
          exact ⟨c1, Or.inl (by omega)⟩
        · intro i hi1 hi2
          omega
      · intro h
        obtain ⟨j, hj1, hj2, hu, htot, hacc, hmin⟩ :=
          selectLoop_eq_some_spec t r rest (selected ++ [utxo]) (total + utxo.value) res h
        refine ⟨j + 1, by omega, by simp only [List.length_cons]; omega, ?_, ?_, ?_, ?_⟩
        · rw [hu, List.take_succ_cons, List.append_assoc]
          rfl
        · rw [htot, prefixTotal_succ]
          ring
        · rw [prefixTotal_succ]
          have e1 : selected.length + (j + 1) = (selected ++ [utxo]).length + j := by
            simp only [List.length_append, List.length_singleton]
            omega
          have e2 : total + (utxo.value + prefixTotal rest j)
              = total + utxo.value + prefixTotal rest j := by ring
          rw [e1, e2]
          exact hacc
        · intro i hi1 hi2
          cases i with
          | zero => omega
          | succ i1 =>
            cases i1 with
            | zero =>
              simp only [Nat.zero_add]
              rw [prefixTotal_one]
              rw [hlen] at c1
              rintro ⟨ha, _⟩
              exact c1 ha
            | succ i2 =>
              rw [prefixTotal_succ]
              have h2 := hmin (i2 + 1) (by omega) (by omega)
              have e1 : selected.length + (i2 + 1 + 1)
                  = (selected ++ [utxo]).length + (i2 + 1) := by
                simp only [List.length_append, List.length_singleton]
                omega
              have e2 : total + (utxo.value + prefixTotal rest (i2 + 1))
                  = total + utxo.value + prefixTotal rest (i2 + 1) := by ring
              rw [e1, e2]
              exact h2

theorem selectLoop_post (t : Int) (r : ℚ) :
    ∀ (rest selected : List UTXO) (total : Int) (res : CoinSelectionResult),
      selectLoop t r rest selected total = some res →
      res.totalValue = t + res.fee + res.change ∧
      (res.change = 0 ∨ DUST_THRESHOLD ≤ res.change) ∧
      (res.change = 0 →
        res.fee = res.totalValue - t ∧
        t + feeNoChangeAt res.utxos.length r ≤ res.totalValue ∧
        res.totalValue - t - feeWithChangeAt res.utxos.length r < DUST_THRESHOLD ∧
        t + feeWithChangeAt res.utxos.length r ≤ res.totalValue) ∧
      (res.change ≠ 0 →
        res.fee = feeWithChangeAt res.utxos.length r ∧
        res.change = res.totalValue - t - res.fee)
  | [], selected, total, res => by
      simp [selectLoop]
  | utxo :: rest, selected, total, res => by
      simp only [selectLoop]
      split_ifs with c1 c2 c3
      · intro h
        injection h with h
        subst h
        refine ⟨?_, Or.inl rfl, ?_, ?_⟩
        · show total + utxo.value = t + (total + utxo.value - t) + 0
          omega
        · intro _
          exact ⟨rfl, c3, c2, c1⟩
        · intro hc
          exact absurd rfl hc
      · exact fun h =>
          selectLoop_post t r rest (selected ++ [utxo]) (total + utxo.value) res h
      · intro h
        injection h with h
        subst h
        have hD : DUST_THRESHOLD = 546 := rfl
        refine ⟨?_, Or.inr ?_, ?_, ?_⟩
        · show total + utxo.value
            = t + feeWithChangeAt (selected ++ [utxo]).length r
              + (total + utxo.value - t - feeWithChangeAt (selected ++ [utxo]).length r)
          omega
        · show DUST_THRESHOLD
            ≤ total + utxo.value - t - feeWithChangeAt (selected ++ [utxo]).length r
          omega
        · intro h0
          have h1 : total + utxo.value - t
              - feeWithChangeAt (selected ++ [utxo]).length r = 0 := h0
          exact absurd h1 (by omega)
        · intro _
          exact ⟨rfl, rfl⟩
      · exact fun h =>
          selectLoop_post t r rest (selected ++ [utxo]) (total + utxo.value) res h

/-! ## Claim theorems for the coin selector -/

theorem selectUtxos_ok_some (availableUtxos : List UTXO) (targetAmount : Int)
    (feeRate : ℚ) (senderAddress recipientAddress : String) (res : CoinSelectionResult)
    (h : selectUtxos availableUtxos targetAmount feeRate senderAddress recipientAddress
      = Except.ok (some res)) :
    selectLoop targetAmount feeRate (sortUtxos availableUtxos) [] 0 = some res := by
  unfold selectUtxos at h
  by_cases hs : isTaprootAddress senderAddress
  · simp [hs] at h
    exact h
  · simp [hs] at h

/-- Sample UTXO for witnesses: 100000 sats, confirmed. -/
def utxoA : UTXO := ⟨"txidA", 0, 100000, ⟨true⟩⟩

/-- Sample UTXO for witnesses: 60000 sats, confirmed. -/
def utxoB : UTXO := ⟨"txidB", 1, 60000, ⟨true⟩⟩

/-- Sample UTXO for witnesses: 10699 sats, confirmed (hits the dust-collapse
branch at target 10000, rate 1). -/
def utxoC : UTXO := ⟨"txidC", 2, 10699, ⟨true⟩⟩

/-- Selection produced by `selectUtxos [utxoA] 10000 1 ...`. -/
def resA : CoinSelectionResult := ⟨[utxoA], 100000, 154, 89846⟩

/-- Selection produced by `selectUtxos [utxoC] 10000 1 ...` (change collapsed). -/
def resC : CoinSelectionResult := ⟨[utxoC], 10699, 699, 0⟩

/-- C1: for every UTXO list, target amount, and fee rate, a successful
`selectUtxos` result satisfies `totalValue = targetAmount + fee + change`
exactly, and `change = 0` or `change ≥ DUST_THRESHOLD` (546). -/
theorem selectUtxos_value_conservation (availableUtxos : List UTXO)
    (targetAmount : Int) (feeRate : ℚ) (senderAddress recipientAddress : String)
    (res : CoinSelectionResult)
    (h : selectUtxos availableUtxos targetAmount feeRate senderAddress recipientAddress
      = Except.ok (some res)) :
    res.totalValue = targetAmount + res.fee + res.change ∧
    (res.change = 0 ∨ DUST_THRESHOLD ≤ res.change) := by
  obtain ⟨h1, h2, _, _⟩ :=
    selectLoop_post targetAmount feeRate (sortUtxos availableUtxos) [] 0 res
      (selectUtxos_ok_some _ _ _ _ _ _ h)
  exact ⟨h1, h2⟩

theorem selectUtxos_value_conservation_witness :
    resA.totalValue = 10000 + resA.fee + resA.change ∧
    (resA.change = 0 ∨ DUST_THRESHOLD ≤ resA.change) :=
  selectUtxos_value_conservation [utxoA] 10000 1 "bc1pSender" "tb1pDest" resA rfl

/-- C2: with a supported sender address, `selectUtxos` returns the
insufficient-funds outcome (`Except.ok none`, the embedding of `null`) if
and only if no nonempty prefix of the value-descending sorted UTXO list
passes the acceptance test `accept` (total covers target plus the
with-change fee, with the no-change fallback in the sub-dust-change case).
`none` carries no partial selection. -/
theorem selectUtxos_insufficient_iff (availableUtxos : List UTXO) (targetAmount : Int)
    (feeRate : ℚ) (senderAddress recipientAddress : String)
    (hsender : isTaprootAddress senderAddress = true) :
    selectUtxos availableUtxos targetAmount feeRate senderAddress recipientAddress
        = Except.ok none ↔
      ∀ n, 1 ≤ n → n ≤ (sortUtxos availableUtxos).length →
        ¬ accept targetAmount feeRate n (prefixTotal (sortUtxos availableUtxos) n) := by
  have hif : selectUtxos availableUtxos targetAmount feeRate senderAddress recipientAddress
      = Except.ok (selectLoop targetAmount feeRate (sortUtxos availableUtxos) [] 0) := by
    unfold selectUtxos
    rw [hsender]
    rfl
  rw [hif, Except.ok.injEq]
  have h0 := selectLoop_eq_none_iff targetAmount feeRate (sortUtxos availableUtxos) [] 0
  simpa using h0

theorem selectUtxos_insufficient_iff_witness :
    selectUtxos [] 1000 1 "bc1pSender2" "tb1pDest" = Except.ok none :=
  (selectUtxos_insufficient_iff [] 1000 1 "bc1pSender2" "tb1pDest" (by decide)).mpr
    (fun n h1 h2 => absurd (h1.trans h2) (by decide))

/-- C4: `estimateTxSize n withChange` is exactly
`10 + n * 58 + (withChange ? 2 : 1) * 43` for every `n : Nat`, and
`calculateFee n withChange feeRate` is the ceiling of
`estimateTxSize n withChange * feeRate`. -/
theorem estimateTxSize_calculateFee_formula (n : Nat) (withChange : Bool) (feeRate : ℚ) :
    estimateTxSize n withChange
        = 10 + (n : Int) * 58 + (if withChange then 2 else 1) * 43 ∧
    calculateFee n withChange feeRate
        = ⌈(estimateTxSize n withChange : ℚ) * feeRate⌉ :=
  ⟨rfl, ceilMul_eq_ceil (estimateTxSize n withChange) feeRate⟩

/-- C8: every successful selection is a nonempty prefix of the
value-descending sorted input list, it passes the acceptance test, and no
strictly shorter nonempty prefix passes it. -/
theorem selectUtxos_sorted_prefix_minimal (availableUtxos : List UTXO) (targetAmount : Int)
    (feeRate : ℚ) (senderAddress recipientAddress : String) (res : CoinSelectionResult)
    (h : selectUtxos availableUtxos targetAmount feeRate senderAddress recipientAddress
      = Except.ok (some res)) :
    ∃ n, 1 ≤ n ∧ n ≤ (sortUtxos availableUtxos).length ∧
      res.utxos = (sortUtxos availableUtxos).take n ∧
      accept targetAmount feeRate n (prefixTotal (sortUtxos availableUtxos) n) ∧
      ∀ m, 1 ≤ m → m < n →
        ¬ accept targetAmount feeRate m (prefixTotal (sortUtxos availableUtxos) m) := by
  obtain ⟨j, hj1, hj2, hu, htot, hacc, hmin⟩ :=
    selectLoop_eq_some_spec targetAmount feeRate (sortUtxos availableUtxos) [] 0 res
      (selectUtxos_ok_some _ _ _ _ _ _ h)
  refine ⟨j, hj1, hj2, ?_, ?_, ?_⟩
  · simpa using hu
  · simpa using hacc
  · intro m hm1 hm2
    simpa using hmin m hm1 hm2

theorem selectUtxos_sorted_prefix_minimal_witness :
    ∃ n, 1 ≤ n ∧ n ≤ (sortUtxos [utxoA, utxoB]).length ∧
      resA.utxos = (sortUtxos [utxoA, utxoB]).take n ∧
      accept 10000 1 n (prefixTotal (sortUtxos [utxoA, utxoB]) n) ∧
      ∀ m, 1 ≤ m → m < n →
        ¬ accept 10000 1 m (prefixTotal (sortUtxos [utxoA, utxoB]) m) :=
  selectUtxos_sorted_prefix_minimal [utxoA, utxoB] 10000 1 "bc1pSender8" "tb1pDest" resA rfl

/-- C10: when a successful selection suppresses change, the whole remainder
goes to fee: `fee = totalValue - targetAmount`, the fee is at least the
one-output ceiling estimate, and it exceeds the two-output ceiling estimate
by strictly less than the dust threshold. -/
theorem selectUtxos_nochange_fee_bounds (availableUtxos : List UTXO)
    (targetAmount : Int) (feeRate : ℚ) (senderAddress recipientAddress : String)
    (res : CoinSelectionResult)
    (hrate : 0 ≤ feeRate)
    (h : selectUtxos availableUtxos targetAmount feeRate senderAddress recipientAddress
      = Except.ok (some res))
    (hchange : res.change = 0) :
    res.fee = res.totalValue - targetAmount ∧
    ⌈(estimateTxSize res.utxos.length false : ℚ) * feeRate⌉ ≤ res.fee ∧
    res.fee < ⌈(estimateTxSize res.utxos.length true : ℚ) * feeRate⌉ + DUST_THRESHOLD := by
  obtain ⟨_, _, h3, _⟩ :=
    selectLoop_post targetAmount feeRate (sortUtxos availableUtxos) [] 0 res
      (selectUtxos_ok_some _ _ _ _ _ _ h)
  obtain ⟨hf, hnc, hwc, _⟩ := h3 hchange
  refine ⟨hf, ?_, ?_⟩
  · rw [← ceilMul_eq_ceil]
    show feeNoChangeAt res.utxos.length feeRate ≤ res.fee
    omega
  · rw [← ceilMul_eq_ceil]
    show res.fee < feeWithChangeAt res.utxos.length feeRate + DUST_THRESHOLD
    omega

theorem selectUtxos_nochange_fee_bounds_witness :
    resC.fee = resC.totalValue - 10000 ∧
    ⌈(estimateTxSize resC.utxos.length false : ℚ) * 1⌉ ≤ resC.fee ∧
    resC.fee < ⌈(estimateTxSize resC.utxos.length true : ℚ) * 1⌉ + DUST_THRESHOLD :=
  selectUtxos_nochange_fee_bounds [utxoC] 10000 1 "bc1pSenderX" "tb1pDest" resC
    (by decide) rfl rfl

/-! ## PSBT build metadata (src/services/psbt-builder.ts, lines 146-227) -/

/-- The metadata part of `PsbtResult` (lines 32-47).  The hex/base64
encodings of the assembled PSBT are produced by bitcoinjs-lib and are
outside the embedding. -/
structure PsbtResultMeta where
  fee : Int
  change : Int
  totalInput : Int
  inputCount : Nat
  outputCount : Nat
  deriving DecidableEq, Repr

/-- Embedding of `buildPsbt` (lines 146-227): sender validation, dust-amount validation,
confirmed-only filtering, coin selection, and the result metadata.  The
byte-level PSBT assembly (inputs and outputs appended to the bitcoinjs
`Psbt` object) is library code outside the embedding; thrown errors are
`Except.error`. -/
def buildPsbt (utxos : List UTXO) (senderAddress recipientAddress : String)
    (amount : Int) (feeRate : ℚ) : Except String PsbtResultMeta :=
  if !isTaprootAddress senderAddress then
    Except.error "Sender must be a Taproot address (bc1p.../tb1p...)"
  else if amount < DUST_THRESHOLD then
    Except.error "Amount too small. Minimum is 546 satoshis"
  else
    match selectUtxos (utxos.filter (fun u => u.status.confirmed)) amount feeRate
        senderAddress recipientAddress with
    | Except.error e => Except.error e
    | Except.ok none => Except.error "Insufficient funds"
    | Except.ok (some selection) =>
      Except.ok ⟨selection.fee, selection.change, selection.totalValue,
        selection.utxos.length, if 0 < selection.change then 2 else 1⟩

/-- C5: a build request with a sub-dust amount or an unsupported sender
address is rejected synchronously: `buildPsbt` returns a validation error,
and the outcome does not depend on the UTXO list at all (the same outcome
results for any two UTXO lists), so no coin selection is run and the UTXO
set is never read. -/
theorem buildPsbt_rejects_before_selection (utxos1 utxos2 : List UTXO)
    (senderAddress recipientAddress : String) (amount : Int) (feeRate : ℚ)
    (h : amount < DUST_THRESHOLD ∨ isTaprootAddress senderAddress = false) :
    (∃ e, buildPsbt utxos1 senderAddress recipientAddress amount feeRate
        = Except.error e) ∧
    buildPsbt utxos1 senderAddress recipientAddress amount feeRate
      = buildPsbt utxos2 senderAddress recipientAddress amount feeRate := by
  cases hb : isTaprootAddress senderAddress with
  | false =>
    exact ⟨⟨"Sender must be a Taproot address (bc1p.../tb1p...)",
      by simp [buildPsbt, hb]⟩, by simp [buildPsbt, hb]⟩
  | true =>
    rcases h with ha | hfalse
    · exact ⟨⟨"Amount too small. Minimum is 546 satoshis",
        by simp [buildPsbt, hb, ha]⟩, by simp [buildPsbt, hb, ha]⟩
    · rw [hb] at hfalse
      cases hfalse

theorem buildPsbt_rejects_before_selection_witness :
    (∃ e, buildPsbt [utxoA] "bc1pSender5" "tb1pDest" 500 1 = Except.error e) ∧
    buildPsbt [utxoA] "bc1pSender5" "tb1pDest" 500 1
      = buildPsbt [utxoB] "bc1pSender5" "tb1pDest" 500 1 :=
  buildPsbt_rejects_before_selection [utxoA] [utxoB] "bc1pSender5" "tb1pDest" 500 1
    (Or.inl (by decide))

/-! ## Fee preview (src/unnamed/part_002, lines 801-827) -/

/-- Embedding of `estimateFee`: filters to confirmed UTXOs and runs the selector;
returns null (`none`) when no selection is possible.  The thrown selector
validation error is not caught anywhere in `estimateFee`, so it propagates
(`Except.error`). -/
def estimateFee (utxos : List UTXO) (fromAddress toAddress : String)
    (amount : Int) (feeRate : ℚ) : Except String (Option (Int × Int)) :=
  match selectUtxos (utxos.filter (fun u => u.status.confirmed)) amount feeRate
      fromAddress toAddress with
  | Except.error e => Except.error e
  | Except.ok none => Except.ok none
  | Except.ok (some selection) => Except.ok (some (selection.fee, selection.change))

/-- C7 counterexample: for a sender address that is not a supported
witness-program address, `estimateFee` propagates the validation exception
thrown by `selectUtxos` instead of resolving it to null, refuting the claim
that `estimateFee` never throws and returns null on validation failure. -/
theorem estimateFee_throws_on_bad_address :
    estimateFee [] "unsupported" "tb1pDest" 1000 1
      = Except.error "Only Taproot addresses are supported" := rfl

/-- C7 amended: `estimateFee` returns `(fee, change)` on a successful
selection and null on insufficient funds, and never throws when the sender
address is a supported Taproot address; for an unsupported sender address
it propagates the validation exception thrown by `selectUtxos` rather than
returning null. -/
theorem estimateFee_amended (utxos : List UTXO) (fromAddress toAddress : String)
    (amount : Int) (feeRate : ℚ) :
    (isTaprootAddress fromAddress = true →
      estimateFee utxos fromAddress toAddress amount feeRate
        = Except.ok ((selectLoop amount feeRate
            (sortUtxos (utxos.filter (fun u => u.status.confirmed))) [] 0).map
              (fun s => (s.fee, s.change)))) ∧
    (isTaprootAddress fromAddress = false →
      estimateFee utxos fromAddress toAddress amount feeRate
        = Except.error "Only Taproot addresses are supported") := by
  constructor
  · intro hs
    unfold estimateFee selectUtxos
    rw [hs]
    cases hLoop : selectLoop amount feeRate
        (sortUtxos (utxos.filter (fun u => u.status.confirmed))) [] 0 with
    | none => simp [hLoop]
    | some s => simp [hLoop]
  · intro hs
    unfold estimateFee selectUtxos
    rw [hs]
    rfl

theorem estimateFee_amended_witness :
    estimateFee [utxoA] "bc1pSender7" "tb1pDest" 10000 1
      = Except.ok (some (154, 89846)) ∧
    estimateFee [] "unsupported7" "tb1pDest" 1000 1
      = Except.error "Only Taproot addresses are supported" :=
  ⟨((estimateFee_amended [utxoA] "bc1pSender7" "tb1pDest" 10000 1).1
      (by decide)).trans rfl,
    (estimateFee_amended [] "unsupported7" "tb1pDest" 1000 1).2 (by decide)⟩

/-! ## Network classification claims -/

/-- C3 counterexample: the address "unsupported0" matches no supported
prefix, yet `getNetwork` classifies it as mainnet (`Network.bitcoin`) and
`getApiForAddress` routes it to the mainnet endpoint; classification does
not report it as unsupported and does not fail. -/
theorem getNetwork_defaults_to_mainnet :
    isTaprootAddress "unsupported0" = false ∧
    getNetwork "unsupported0" = Network.bitcoin ∧
    getApiForAddress "unsupported0" = MempoolNetwork.mainnet := by decide

/-- C3 amended: classification alone does not fail closed — every address
without the testnet prefix, including unsupported ones, is mapped to the
mainnet network and mainnet endpoint.  Fail-closed handling of unsupported
addresses happens upstream instead: `selectUtxos` and `buildPsbt` reject a
non-Taproot sender with a validation error before the classified network or
endpoint is used for fee or broadcast calls. -/
theorem network_classification_amended (address : String)
    (h : isTaprootAddress address = false) (utxos : List UTXO)
    (targetAmount amount : Int) (feeRate : ℚ) (recipientAddress : String) :
    getNetwork address = Network.bitcoin ∧
    getApiForAddress address = MempoolNetwork.mainnet ∧
    selectUtxos utxos targetAmount feeRate address recipientAddress
      = Except.error "Only Taproot addresses are supported" ∧
    buildPsbt utxos address recipientAddress amount feeRate
      = Except.error "Sender must be a Taproot address (bc1p.../tb1p...)" := by
  have ht : isTestnetAddress address = false := by
    unfold isTaprootAddress at h
    exact (Bool.or_eq_false_iff.mp h).2
  refine ⟨?_, ?_, ?_, ?_⟩
  · unfold getNetwork
    rw [ht]
    rfl
  · unfold getApiForAddress
    rw [ht]
    rfl
  · unfold selectUtxos
    rw [h]
    rfl
  · unfold buildPsbt
    rw [h]
    rfl

theorem network_classification_amended_witness :
    getNetwork "unsupported1" = Network.bitcoin ∧
    getApiForAddress "unsupported1" = MempoolNetwork.mainnet ∧
    selectUtxos [utxoA] 1000 1 "unsupported1" "tb1pDest"
      = Except.error "Only Taproot addresses are supported" ∧
    buildPsbt [utxoA] "unsupported1" "tb1pDest" 1000 1
      = Except.error "Sender must be a Taproot address (bc1p.../tb1p...)" :=
  network_classification_amended "unsupported1" (by decide) [utxoA] 1000 1000 1 "tb1pDest"

/-! ## Send orchestration (src/unnamed/part_002, lines 832-895) -/

/-- Embedding of `SendBitcoinResult` (lines 660-669). -/
structure SendBitcoinResult where
  txid : String
  rawTx : String
  fee : Int
  change : Int
  deriving DecidableEq, Repr

/-- The `step` field of `TransactionState` (lines 671-680). -/
inductive TxStep
  | idle
  | building
  | signing
  | broadcasting
  | complete
  | error
  deriving DecidableEq, Repr

/-- The part of the built PSBT result that the send flow consumes. -/
structure PsbtBuildOutcome where
  psbtHex : String
  fee : Int
  change : Int
  deriving DecidableEq, Repr

/-- Observable outcome of one `sendBitcoin` run: the returned or thrown
value, the final `txState.step`, and how many times the gateway broadcast
endpoint was invoked. -/
structure SendOutcome where
  result : Except String SendBitcoinResult
  finalStep : TxStep
  broadcastCalls : Nat
  deriving Repr

/-- Embedding of `sendBitcoin` (lines 832-895).  The build, sign, finalize, and
broadcast outcomes are oracle parameters (they are produced by bitcoinjs,
Turnkey, and the mempool gateway); the control flow between them is
translated from the source: the `isReady` and Taproot guards throw before
the try block (state stays `idle`), any failure inside the try lands in the
catch which sets the `error` state and rethrows, broadcast runs only after
`finalizePsbt` returned, and the `complete` state carries the result. -/
def sendBitcoin (isReady : Bool) (fromAddress : String)
    (buildResult : Except String PsbtBuildOutcome)
    (signResult : String → Except String String)
    (finalizeResult : String → Except String String)
    (broadcastResult : String → Except String String) : SendOutcome :=
  if !isReady then
    ⟨Except.error "Client not ready", TxStep.idle, 0⟩
  else if !isTaprootAddress fromAddress then
    ⟨Except.error "Only Taproot addresses are supported", TxStep.idle, 0⟩
  else
    match buildResult with
    | Except.error e => ⟨Except.error e, TxStep.error, 0⟩
    | Except.ok psbtResult =>
      match signResult psbtResult.psbtHex with
      | Except.error e => ⟨Except.error e, TxStep.error, 0⟩
      | Except.ok signedPsbt =>
        match finalizeResult signedPsbt with
        | Except.error e => ⟨Except.error e, TxStep.error, 0⟩
        | Except.ok rawTx =>
          match broadcastResult rawTx with
          | Except.error e => ⟨Except.error e, TxStep.error, 1⟩
          | Except.ok txid =>
            ⟨Except.ok ⟨txid, rawTx, psbtResult.fee, psbtResult.change⟩,
              TxStep.complete, 1⟩

/-- C6: broadcast is invoked only after finalize succeeded — in every
execution where finalize fails on the signed template, `sendBitcoin` ends
in the `error` state with the finalize error and the gateway broadcast
endpoint records zero invocations. -/
theorem sendBitcoin_no_broadcast_on_finalize_failure (fromAddress : String)
    (psbtResult : PsbtBuildOutcome)
    (signResult finalizeResult broadcastResult : String → Except String String)
    (signedPsbt e : String)
    (hfrom : isTaprootAddress fromAddress = true)
    (hsign : signResult psbtResult.psbtHex = Except.ok signedPsbt)
    (hfin : finalizeResult signedPsbt = Except.error e) :
    sendBitcoin true fromAddress (Except.ok psbtResult) signResult finalizeResult
        broadcastResult
      = ⟨Except.error e, TxStep.error, 0⟩ := by
  unfold sendBitcoin
  rw [hfrom]
  simp [hsign, hfin]

theorem sendBitcoin_no_broadcast_on_finalize_failure_witness :
    sendBitcoin true "bc1pSender6" (Except.ok ⟨"psbt6", 200, 0⟩)
        (fun _ => Except.ok "signed6")
        (fun _ => Except.error "missing witness data")
        (fun _ => Except.ok "txid6")
      = ⟨Except.error "missing witness data", TxStep.error, 0⟩ :=
  sendBitcoin_no_broadcast_on_finalize_failure "bc1pSender6" ⟨"psbt6", 200, 0⟩
    (fun _ => Except.ok "signed6") (fun _ => Except.error "missing witness data")
    (fun _ => Except.ok "txid6") "signed6" "missing witness data" (by decide) rfl rfl

/-! ## Frame property of the selector (no mutation of the input array) -/

/-- A store of JS array values: an array binding is an index into the
store, so that in-place mutation (`Array.prototype.sort`) and aliasing of
arrays can be expressed. -/
abbrev Store := List (List UTXO)

/-- Read the array value bound to `ref`. -/
def readArr (s : Store) (ref : Nat) : List UTXO :=
  s.getD ref []

/-- Overwrite the array value bound to `ref` (in-place mutation). -/
def writeArr (s : Store) (ref : Nat) (v : List UTXO) : Store :=
  s.set ref v

/-- Allocate a fresh array holding `v`; returns the new store and the fresh
reference. -/
def allocArr (s : Store) (v : List UTXO) : Store × Nat :=
  (s ++ [v], s.length)

/-- Embedding of `selectUtxos` over the store (lines 84-141): the spread
`[...availableUtxos]` allocates a fresh array holding a copy of the input
elements, `.sort(...)` mutates that fresh array in place, and the loop then
reads the sorted copy.  The input reference is never written. -/
def selectUtxosStore (s : Store) (availableRef : Nat) (targetAmount : Int)
    (feeRate : ℚ) (senderAddress recipientAddress : String) :
    Store × Except String (Option CoinSelectionResult) :=
  if !isTaprootAddress senderAddress then
    (s, Except.error "Only Taproot addresses are supported")
  else
    let copy := allocArr s (readArr s availableRef)
    let s2 := writeArr copy.1 copy.2 (sortUtxos (readArr copy.1 copy.2))
    (s2, Except.ok (selectLoop targetAmount feeRate (readArr s2 copy.2) [] 0))

theorem readArr_concat_self (s : Store) (v : List UTXO) :
    readArr (s ++ [v]) s.length = v := by
  induction s with
  | nil => rfl
  | cons a s ih =>
    simpa [readArr] using ih

theorem writeArr_concat_self (s : Store) (v w : List UTXO) :
    writeArr (s ++ [v]) s.length w = s ++ [w] := by
  induction s with
  | nil => rfl
  | cons a s ih =>
    simpa [writeArr] using ih

theorem readArr_concat_lt (s : Store) (v : List UTXO) (r : Nat) (h : r < s.length) :
    readArr (s ++ [v]) r = readArr s r := by
  induction s generalizing r with
  | nil => simp at h
  | cons a s ih =>
    cases r with
    | zero => rfl
    | succ r1 =>
      have h1 : r1 < s.length := by
        simpa using h
      simpa [readArr] using ih r1 h1

/-- C9: `selectUtxos` never mutates its input: after the call the array the
caller passed holds the same elements in the same order as before (the
in-place sort touches only the freshly allocated spread copy), and the
store-level run returns exactly what the pure `selectUtxos` computes from
the input value. -/
theorem selectUtxos_input_unchanged (s : Store) (availableRef : Nat)
    (targetAmount : Int) (feeRate : ℚ) (senderAddress recipientAddress : String)
    (href : availableRef < s.length) :
    readArr (selectUtxosStore s availableRef targetAmount feeRate senderAddress
        recipientAddress).1 availableRef
      = readArr s availableRef ∧
    (selectUtxosStore s availableRef targetAmount feeRate senderAddress
        recipientAddress).2
      = selectUtxos (readArr s availableRef) targetAmount feeRate senderAddress
          recipientAddress := by
  cases hb : isTaprootAddress senderAddress with
  | false =>
    constructor
    · simp [selectUtxosStore, hb]
    · simp [selectUtxosStore, selectUtxos, hb]
  | true =>
    have hread : readArr (s ++ [readArr s availableRef]) s.length
        = readArr s availableRef := readArr_concat_self s (readArr s availableRef)
    constructor
    · simp only [selectUtxosStore, hb, Bool.not_true, Bool.false_eq_true, if_false,
        allocArr, hread, writeArr_concat_self]
      exact readArr_concat_lt s _ availableRef href
    · simp only [selectUtxosStore, selectUtxos, hb, Bool.not_true, Bool.false_eq_true,
        if_false, allocArr, hread, writeArr_concat_self]
      rw [readArr_concat_self]

theorem selectUtxos_input_unchanged_witness :
    readArr (selectUtxosStore [[utxoB, utxoA]] 0 10000 1 "bc1pSender9" "tb1pDest").1 0
      = readArr [[utxoB, utxoA]] 0 ∧
    (selectUtxosStore [[utxoB, utxoA]] 0 10000 1 "bc1pSender9" "tb1pDest").2
      = selectUtxos (readArr [[utxoB, utxoA]] 0) 10000 1 "bc1pSender9" "tb1pDest" :=
  selectUtxos_input_unchanged [[utxoB, utxoA]] 0 10000 1 "bc1pSender9" "tb1pDest"
    (by decide)
